import Mathlib

/-!
Shallow embedding of the persistence and service layer of the
fx-gin-scaffold user-account backend, together with proofs about the
behaviour of its user service (register / login / token refresh), its two
repository variants (relational via GORM, document store via MongoDB) and
its version-tracked migration runner.

Conventions of the embedding:
* Go `string` is Lean `String`; Go `len` on strings (bytes) is
  `String.utf8ByteSize`; `strings.TrimSpace` is `trimStr`, `strings.ToLower`
  is `lowerStr`, and string comparison is `strLE` (all ASCII-faithful).
* Wall-clock instants (`time.Time`) and durations are `Int` nanoseconds.
* Fallible Go functions returning `(T, error)` become `Except DomainError T`.
* The backing database is made explicit: a list of rows/documents threaded
  through each repository operation; the backend's unique index on email is
  modelled directly as a membership check at insert.
* bcrypt hashing/verification and JWT signing are black boxes, passed in as
  function parameters.
-/

namespace Scaffold

/-! ## String primitives

Executable embeddings of the Go string operations used by the service and
repositories (faithful on ASCII, which covers all strings the claims
touch). -/

/-- `strings.TrimSpace`: strip leading and trailing whitespace. -/
def trimStr (s : String) : String :=
  ⟨((s.data.dropWhile Char.isWhitespace).reverse.dropWhile Char.isWhitespace).reverse⟩

/-- `strings.ToLower`: lowercase every character. -/
def lowerStr (s : String) : String :=
  ⟨s.data.map Char.toLower⟩

/-- Byte-lexicographic string order (`<`/`≤` on Go strings; on ASCII it
coincides with codepoint-lexicographic order on the character data). -/
def strLE (a b : String) : Prop :=
  a.data ≤ b.data

instance : DecidableRel strLE :=
  fun a b => inferInstanceAs (Decidable (a.data ≤ b.data))

instance : IsTotal String strLE :=
  ⟨fun a b => le_total a.data b.data⟩

instance : IsTrans String strLE :=
  ⟨fun _ _ _ h h2 => le_trans h h2⟩

/-! ## Domain error taxonomy (internal/domain error definitions) -/

/-- Error codes of the domain error taxonomy. -/
inductive ErrCode
  | validation
  | invalid
  | unauthorized
  | forbidden
  | invalidToken
  | invalidPassword
  | notFound
  | alreadyExists
  | internal
  | database
deriving DecidableEq, Repr

/-- A domain error: code, message and optional diagnostic details. -/
structure DomainError where
  code : ErrCode
  message : String
  details : String := ""
deriving DecidableEq, Repr

def ErrUserNotFound : DomainError := ⟨.notFound, "User not found", ""⟩

def ErrUserExists : DomainError := ⟨.alreadyExists, "User already exists", ""⟩

def ErrInvalidPassword : DomainError := ⟨.invalidPassword, "Invalid password", ""⟩

def ErrInvalidToken : DomainError := ⟨.invalidToken, "Invalid token", ""⟩

def newError (code : ErrCode) (message : String) : DomainError :=
  ⟨code, message, ""⟩

/-- `WrapError`: wraps a backend error text as a domain error. -/
def wrapError (details : String) (code : ErrCode) (message : String) : DomainError :=
  ⟨code, message, details⟩

/-- `ValidationError(field, message)` (the quote characters around the field
name in the Go format string are elided). -/
def validationError (field message : String) : DomainError :=
  ⟨.validation, "Validation failed for field " ++ field ++ ": " ++ message,
    "field=" ++ field⟩

/-! ## User data model (internal/domain user model) -/

/-- The persisted `User` entity. Timestamps are `Int` nanoseconds. -/
structure User where
  id : Nat
  email : String
  password : String
  name : String
  role : String
  active : Bool
  createdAt : Int
  updatedAt : Int
deriving DecidableEq, Repr

structure UserCreateRequest where
  email : String
  password : String
  name : String
  role : String
deriving DecidableEq, Repr

structure UserLoginRequest where
  email : String
  password : String
deriving DecidableEq, Repr

/-- The sanitized user view returned to clients: no password field. -/
structure UserResponse where
  id : Nat
  email : String
  name : String
  role : String
  active : Bool
  createdAt : Int
  updatedAt : Int
deriving DecidableEq, Repr

/-- `User.ToResponse`. -/
def User.toResponse (u : User) : UserResponse :=
  ⟨u.id, u.email, u.name, u.role, u.active, u.createdAt, u.updatedAt⟩

/-- Email normalization as performed by the service:
`strings.ToLower(strings.TrimSpace(email))`. -/
def normalizeEmail (s : String) : String :=
  lowerStr (trimStr s)

/-! ## Relational user store, service-facing operations

The relational backend is a list of `User` rows.  `GetByEmail` returns the
first row whose stored email equals the key exactly; `Create` enforces the
unique index on email. -/

/-- `userGormRepository.GetByEmail` over a store of rows. -/
def getByEmail (store : List User) (email : String) : Except DomainError User :=
  match store.find? (fun u => u.email == email) with
  | some u => .ok u
  | none => .error ErrUserNotFound

/-- Repository `Create`: the backend's unique index on email rejects a row
whose email is already stored (surfacing as `ErrUserExists` after the
repository classifies the constraint violation); otherwise the row is
appended. -/
def create (store : List User) (user : User) : Except DomainError (List User) :=
  if store.any (fun u => u.email == user.email) then .error ErrUserExists
  else .ok (store ++ [user])

/-! ## User service (internal/service user service) -/

/-- `validateCreateRequest`; `none` means the request passes validation. -/
def validateCreateRequest (req : UserCreateRequest) : Option DomainError :=
  if trimStr req.email == "" then some (validationError "email" "is required")
  else if trimStr req.name == "" then some (validationError "name" "is required")
  else if (trimStr req.name).utf8ByteSize < 2 then
    some (validationError "name" "must be at least 2 characters")
  else if req.password.utf8ByteSize < 8 then
    some (validationError "password" "must be at least 8 characters")
  else none

/-- `validateLoginRequest`; `none` means the request passes validation. -/
def validateLoginRequest (req : UserLoginRequest) : Option DomainError :=
  if trimStr req.email == "" then some (validationError "email" "is required")
  else if req.password == "" then some (validationError "password" "is required")
  else none

/-- `userService.getDefaultRole`. -/
def getDefaultRole (requestedRole : String) : String :=
  if requestedRole == "admin" || requestedRole == "user" then requestedRole
  else "user"

/-- `userService.Register`.  `hashFn` is the bcrypt black box, `now` the
current time; on success returns the sanitized response and the new store. -/
def register (hashFn : String → String) (now : Int) (store : List User)
    (req : UserCreateRequest) : Except DomainError (UserResponse × List User) :=
  match validateCreateRequest req with
  | some e => .error e
  | none =>
    -- duplicate pre-check: GetByEmail with the raw, caller-supplied email
    match getByEmail store req.email with
    | .ok _ => .error ErrUserExists
    | .error e =>
      if e == ErrUserNotFound then
        let user : User :=
          { id := 0
            email := normalizeEmail req.email
            password := hashFn req.password
            name := trimStr req.name
            role := getDefaultRole req.role
            active := true
            createdAt := now
            updatedAt := now }
        match create store user with
        | .error e => .error e
        | .ok store' => .ok (user.toResponse, store')
      else .error e

/-- `userService.Login`.  `checkPw stored plaintext` is the bcrypt
verification black box; `genTok` the token-issuing black box. -/
def login (checkPw : String → String → Bool)
    (genTok : User → Except DomainError String) (store : List User)
    (req : UserLoginRequest) : Except DomainError (String × UserResponse) :=
  match validateLoginRequest req with
  | some e => .error e
  | none =>
    match getByEmail store (normalizeEmail req.email) with
    | .error e =>
      if e == ErrUserNotFound then .error ErrInvalidPassword else .error e
    | .ok user =>
      if !user.active then .error (newError .forbidden "Account is deactivated")
      else if !(checkPw user.password req.password) then .error ErrInvalidPassword
      else
        match genTok user with
        | .error e => .error e
        | .ok tok => .ok (tok, user.toResponse)

/-! ## Token service (internal/service auth service)

Signing and parsing of the JWT string are a black box; `refreshToken` is
modelled at the claims level, taking the outcome of `ValidateToken` on the
presented token as input. -/

/-- JWT claims carried by a token. Instants are `Int` nanoseconds. -/
structure JWTClaims where
  userID : Nat
  email : String
  role : String
  expiresAt : Int
  issuedAt : Int
  notBefore : Int
  issuer : String
  subject : String
deriving DecidableEq, Repr

/-- `time.Hour` in nanoseconds. -/
def hourNS : Int := 3600 * 1000000000

/-- `authService.GenerateToken`: claims of a freshly issued token. -/
def generateToken (cfgExpiration now : Int) (u : User) : JWTClaims :=
  { userID := u.id
    email := u.email
    role := u.role
    expiresAt := now + cfgExpiration
    issuedAt := now
    notBefore := now
    issuer := "fx-gin-scaffold"
    subject := u.email }

/-- `authService.RefreshToken`: `validated` is the result of `ValidateToken`
on the presented token string.  `time.Until(claims.ExpiresAt.Time)` is
`claims.expiresAt - now`. -/
def refreshToken (cfgExpiration now : Int)
    (validated : Except DomainError JWTClaims) : Except DomainError JWTClaims :=
  match validated with
  | .error e => .error e
  | .ok claims =>
    if claims.expiresAt - now > hourNS then
      .error (newError .invalid "Token is not close to expiration")
    else
      .ok {
        userID := claims.userID
        email := claims.email
        role := claims.role
        expiresAt := now + cfgExpiration
        issuedAt := now
        notBefore := now
        issuer := "fx-gin-scaffold"
        subject := claims.email }

/-! ## Relational repository: Update and the uniqueness classifier -/

/-- Case-sensitive substring test (`strings.Contains`). -/
def hasSub (s sub : String) : Bool :=
  decide (sub.toList.IsInfix s.toList)

/-- `isUniqueConstraintError`: best-effort string classifier over the
backend error text (lowercased), matching known constraint-violation
phrasings of PostgreSQL, SQLite and MySQL. -/
def isUniqueConstraintError (err : Option String) : Bool :=
  match err with
  | none => false
  | some s =>
    let e := lowerStr s
    hasSub e "duplicate key" || hasSub e "violates unique constraint" ||
    hasSub e "unique constraint failed" || hasSub e "constraint failed: unique" ||
    hasSub e "duplicate entry"

/-- `userGormRepository.Update`, abstracted over the backend outcome of the
`Save` call: its error (if any) and the number of rows affected. -/
def gormUpdate (backendErr : Option String) (rowsAffected : Nat) :
    Except DomainError Unit :=
  match backendErr with
  | some e =>
    if isUniqueConstraintError (some e) then .error ErrUserExists
    else .error (wrapError e .database "Failed to update user")
  | none => if rowsAffected == 0 then .error ErrUserNotFound else .ok ()

/-! ## Document-store (MongoDB) repository -/

/-- A document of the `users` collection.  `oid` stands for the
store-generated ObjectID, reduced to the numeric surrogate
`uint(oid.Timestamp().Unix())` that `toDomainUser` derives from it. -/
structure MongoDoc where
  oid : Nat
  email : String
  password : String
  name : String
  role : String
  active : Bool
  createdAt : Int
  updatedAt : Int
deriving DecidableEq, Repr

/-- `mongoUser.toDomainUser`. -/
def MongoDoc.toDomainUser (d : MongoDoc) : User :=
  ⟨d.oid, d.email, d.password, d.name, d.role, d.active, d.createdAt, d.updatedAt⟩

/-- `userMongoRepository.GetByID`: unconditionally a NotFound-kind error. -/
def mongoGetByID (_store : List MongoDoc) (_id : Nat) : Except DomainError User :=
  .error (newError .notFound "GetByID not implemented for MongoDB - use GetByEmail")

/-- `userMongoRepository.Delete`: unconditionally a NotFound-kind error. -/
def mongoDelete (_store : List MongoDoc) (_id : Nat) :
    Except DomainError (List MongoDoc) :=
  .error (newError .notFound "Delete by ID not implemented for MongoDB")

/-- `UpdateOne` with filter `email = user.email` and a `$set` on name, role,
active, updated_at: rewrites the first matching document, leaving its email,
password, created_at and identifier untouched; `none` when no document
matches. -/
def mongoUpdateDocs (user : User) (now : Int) :
    List MongoDoc → Option (List MongoDoc)
  | [] => none
  | d :: rest =>
    if d.email == user.email then
      some ({ d with
        name := user.name
        role := user.role
        active := user.active
        updatedAt := now } :: rest)
    else
      match mongoUpdateDocs user now rest with
      | none => none
      | some rest' => some (d :: rest')

/-- `userMongoRepository.Update`, abstracted over the backend error of the
`UpdateOne` call; a matched count of zero surfaces as `ErrUserNotFound`. -/
def mongoUpdate (backendErr : Option String) (now : Int)
    (store : List MongoDoc) (user : User) : Except DomainError (List MongoDoc) :=
  match backendErr with
  | some e => .error (wrapError e .database "Failed to update user")
  | none =>
    match mongoUpdateDocs user now store with
    | none => .error ErrUserNotFound
    | some store' => .ok store'

/-! ## List and Search on both repository variants

Pagination offsets/limits are the non-negative values guaranteed by the
HTTP layer's validation.  Case-insensitive matching models both the
relational `ILIKE escaped-pattern` predicate and the document store's
case-insensitive regex for a metacharacter-free query. -/

/-- Case-insensitive substring test. -/
def containsCI (s q : String) : Bool :=
  decide ((lowerStr q).toList.IsInfix (lowerStr s).toList)

/-- `ORDER BY created_at DESC` on rows. -/
def sortUsersByCreatedDesc (l : List User) : List User :=
  l.insertionSort (fun a b => b.createdAt ≤ a.createdAt)

/-- Sort `created_at: -1` on documents. -/
def sortDocsByCreatedDesc (l : List MongoDoc) : List MongoDoc :=
  l.insertionSort (fun a b => b.createdAt ≤ a.createdAt)

/-- `userGormRepository.List`: page of all rows ordered by creation time
descending, plus the total count of all rows (no active filter). -/
def gormList (store : List User) (offset limit : Nat) : List User × Nat :=
  (((sortUsersByCreatedDesc store).drop offset).take limit, store.length)

/-- `userGormRepository.Search`: case-insensitive contains on name OR email
(no active filter). -/
def gormSearch (store : List User) (query : String) (offset limit : Nat) :
    List User × Nat :=
  let ms := store.filter (fun u => containsCI u.name query || containsCI u.email query)
  (((sortUsersByCreatedDesc ms).drop offset).take limit, ms.length)

/-- `userMongoRepository.List`: both the count and the page use the filter
`active: true`. -/
def mongoList (store : List MongoDoc) (offset limit : Nat) : List User × Nat :=
  let ms := store.filter (fun d => d.active)
  ((((sortDocsByCreatedDesc ms).drop offset).take limit).map MongoDoc.toDomainUser,
    ms.length)

/-- `userMongoRepository.Search`: filter `active: true` AND (name or email
matches the case-insensitive pattern). -/
def mongoSearch (store : List MongoDoc) (query : String) (offset limit : Nat) :
    List User × Nat :=
  let ms := store.filter
    (fun d => d.active && (containsCI d.name query || containsCI d.email query))
  ((((sortDocsByCreatedDesc ms).drop offset).take limit).map MongoDoc.toDomainUser,
    ms.length)

/-- A document mirrors a row when the fields consulted by List/Search
(email, name, active flag, creation time) agree; a relational store and a
document store hold the same logical user data when they correspond
pointwise under `Mirror`. -/
def Mirror (d : MongoDoc) (u : User) : Prop :=
  d.email = u.email ∧ d.name = u.name ∧ d.active = u.active ∧ d.createdAt = u.createdAt

/-! ## Migration runner (pkg migration Migrator)

A migration's `Up` action is a fallible transformer of an abstract database
state `σ`.  The ledger (`migrations` table/collection, version as unique
primary key) is a list of records; the database is reliable in the model,
so the only failure of `recordMigration` is the primary-key violation on a
duplicate version. -/

/-- A persisted ledger record (`executed_at` is set by the backend and not
consulted by the runner, so it is omitted). -/
structure LedgerRec where
  version : String
  description : String
deriving DecidableEq, Repr

/-- A registered migration definition. -/
structure Migration (σ : Type) where
  version : String
  description : String
  up : σ → Except String σ

/-- The observable outcome of a `Migrate` run: final ledger, final database
state, the versions whose `Up` action was executed (in execution order),
and the run's error, if any. -/
structure MigrateOutcome (σ : Type) where
  ledger : List LedgerRec
  state : σ
  upsRun : List String
  err : Option String

/-- The loop body of `Migrator.Migrate` over the sorted migration list:
skip versions in the precomputed `executed` set, otherwise run `Up` and,
on success, record the version; any failure aborts the run at once. -/
def runMigs {σ : Type} : List (Migration σ) → List String → List LedgerRec →
    σ → List String → MigrateOutcome σ
  | [], _, ledger, s, ups => ⟨ledger, s, ups, none⟩
  | m :: rest, executed, ledger, s, ups =>
    if m.version ∈ executed then runMigs rest executed ledger s ups
    else
      match m.up s with
      | .error e =>
        ⟨ledger, s, ups ++ [m.version],
          some ("migration " ++ m.version ++ " failed: " ++ e)⟩
      | .ok s' =>
        if m.version ∈ ledger.map (·.version) then
          ⟨ledger, s', ups ++ [m.version],
            some ("failed to record migration " ++ m.version ++ ": duplicate version")⟩
        else
          runMigs rest executed (ledger ++ [⟨m.version, m.description⟩]) s'
            (ups ++ [m.version])

/-- Comparison used to sort registered migrations: ascending version. -/
def migLE {σ : Type} (a b : Migration σ) : Prop :=
  strLE a.version b.version

instance {σ : Type} : DecidableRel (fun a b : Migration σ => migLE a b) :=
  fun a b => inferInstanceAs (Decidable (strLE a.version b.version))

instance {σ : Type} : IsTotal (Migration σ) migLE :=
  ⟨fun a b => IsTotal.total (r := strLE) a.version b.version⟩

instance {σ : Type} : IsTrans (Migration σ) migLE :=
  ⟨fun _ _ _ h h2 => Trans.trans (r := strLE) (s := strLE) h h2⟩

/-- `Migrator.Migrate`: sort the registered migrations ascending by version,
read the executed set from the ledger, then run the pending ones. -/
def migrate {σ : Type} (migs : List (Migration σ)) (ledger : List LedgerRec)
    (s : σ) : MigrateOutcome σ :=
  runMigs (migs.insertionSort migLE) (ledger.map (·.version)) ledger s []

/-!
# Theorems
-/

/-- C5: On the document-store (MongoDB) repository variant, `GetByID` and
`Delete` fail for every input id and store: each unconditionally returns a
NotFound-kind error, so neither operation can ever succeed or modify the
store. -/
theorem mongo_getByID_delete_always_notFound (store : List MongoDoc) (id : Nat) :
    (∃ e, mongoGetByID store id = .error e ∧ e.code = .notFound) ∧
    (∃ e, mongoDelete store id = .error e ∧ e.code = .notFound) :=
  ⟨⟨_, rfl, rfl⟩, ⟨_, rfl, rfl⟩⟩

/-- C7: On the relational variant, `Update` maps the backend outcome of the
`Save` call to the domain taxonomy: zero rows affected with no backend error
is `ErrUserNotFound` (a NotFound-kind error); a backend error classified as
a unique-constraint violation is `ErrUserExists` (AlreadyExists); any other
backend error is wrapped as a storage (database) error. -/
theorem gormUpdate_error_mapping (e : String) (n : Nat) :
    gormUpdate none 0 = .error ErrUserNotFound ∧
    ErrUserNotFound.code = .notFound ∧
    (isUniqueConstraintError (some e) = true →
      gormUpdate (some e) n = .error ErrUserExists) ∧
    ErrUserExists.code = .alreadyExists ∧
    (isUniqueConstraintError (some e) = false →
      gormUpdate (some e) n =
        .error (wrapError e .database "Failed to update user")) := by
  refine ⟨rfl, rfl, fun h => ?_, rfl, fun h => ?_⟩ <;> simp [gormUpdate, h]

/-- Witness for C7: a SQLite unique-constraint message maps to
`ErrUserExists`; an unrelated backend message is wrapped as a database
error. -/
theorem gormUpdate_error_mapping_witness :
    gormUpdate (some "UNIQUE constraint failed: users.email") 1 = .error ErrUserExists ∧
    gormUpdate (some "disk input error") 1 =
      .error (wrapError "disk input error" .database "Failed to update user") :=
  ⟨(gormUpdate_error_mapping "UNIQUE constraint failed: users.email" 1).2.2.1 (by decide),
   (gormUpdate_error_mapping "disk input error" 1).2.2.2.2 (by decide)⟩

theorem getDefaultRole_eq (r : String) :
    getDefaultRole r = if r = "admin" ∨ r = "user" then r else "user" := by
  by_cases h1 : r = "admin"
  · simp [getDefaultRole, h1]
  · by_cases h2 : r = "user"
    · simp [getDefaultRole, h1, h2]
    · simp [getDefaultRole, h1, h2]

theorem getDefaultRole_mem (r : String) :
    getDefaultRole r = "user" ∨ getDefaultRole r = "admin" := by
  by_cases h1 : r = "admin"
  · right; simp [getDefaultRole, h1]
  · by_cases h2 : r = "user"
    · left; simp [getDefaultRole, h1, h2]
    · left; simp [getDefaultRole, h1, h2]

/-- C1: for a login request that passes validation, a normalized email
matching no stored account yields exactly `ErrInvalidPassword`, as does a
wrong password for an existing active account (the two cases are
indistinguishable to the caller); an existing inactive account instead
yields a distinct Forbidden-kind error before the password is even
consulted. -/
theorem login_anti_enumeration (checkPw : String → String → Bool)
    (genTok : User → Except DomainError String) (store : List User)
    (req : UserLoginRequest) (hv : validateLoginRequest req = none) :
    ((∀ u ∈ store, u.email ≠ normalizeEmail req.email) →
      login checkPw genTok store req = .error ErrInvalidPassword) ∧
    (∀ u, getByEmail store (normalizeEmail req.email) = .ok u →
      u.active = true → checkPw u.password req.password = false →
      login checkPw genTok store req = .error ErrInvalidPassword) ∧
    (∀ u, getByEmail store (normalizeEmail req.email) = .ok u →
      u.active = false →
      login checkPw genTok store req =
        .error (newError .forbidden "Account is deactivated")) := by
  unfold login
  rw [hv]
  refine ⟨fun habs => ?_, fun u hu hact hpw => ?_, fun u hu hact => ?_⟩
  · have hg : getByEmail store (normalizeEmail req.email) = .error ErrUserNotFound := by
      unfold getByEmail
      rw [List.find?_eq_none.mpr (fun u hu => by simpa using habs u hu)]
    rw [hg]
    simp [ErrUserNotFound]
  · rw [hu]
    simp [hact, hpw]
  · rw [hu]
    simp [hact]

/-- Witness for C1: an inactive account with the correct password surfaces
the Forbidden error, not `ErrInvalidPassword`. -/
theorem login_anti_enumeration_witness :
    validateLoginRequest ⟨"alice@example.com", "hash"⟩ = none ∧
    login (fun h p => h == p) (fun _ => .ok "tok")
      [⟨1, "alice@example.com", "hash", "Alice", "user", false, 0, 0⟩]
      ⟨"alice@example.com", "hash"⟩ =
      .error (newError .forbidden "Account is deactivated") :=
  ⟨by decide,
    (login_anti_enumeration (fun h p => h == p) (fun _ => .ok "tok")
      [⟨1, "alice@example.com", "hash", "Alice", "user", false, 0, 0⟩]
      ⟨"alice@example.com", "hash"⟩ (by decide)).2.2
      ⟨1, "alice@example.com", "hash", "Alice", "user", false, 0, 0⟩ rfl rfl⟩

/-- C8: a successful registration persists exactly one new user whose role
is the requested role when that is "admin" or "user" and "user" otherwise,
never a role outside that set, and whose active flag is set. -/
theorem register_role_and_active (hashFn : String → String) (now : Int)
    (store : List User) (req : UserCreateRequest) (resp : UserResponse)
    (store' : List User)
    (h : register hashFn now store req = .ok (resp, store')) :
    ∃ u : User, store' = store ++ [u] ∧ resp = u.toResponse ∧
      u.role = (if req.role = "admin" ∨ req.role = "user" then req.role else "user") ∧
      (u.role = "user" ∨ u.role = "admin") ∧
      u.active = true := by
  unfold register at h
  split at h
  · exact absurd h (by simp)
  · split at h
    · exact absurd h (by simp)
    · split at h
      · simp only [create] at h
        split at h
        · simp at h
        · rename_i store2 heq
          simp only [Except.ok.injEq, Prod.mk.injEq] at h
          split at heq
          · simp at heq
          · simp only [Except.ok.injEq] at heq
            subst heq
            refine ⟨_, h.2.symm, h.1.symm, ?_, ?_, rfl⟩
            · exact getDefaultRole_eq req.role
            · exact getDefaultRole_mem req.role
      · exact absurd h (by simp)

/-- Witness for C8: registering with the unknown role "root" persists role
"user" and active=true. -/
theorem register_role_and_active_witness :
    ∃ u : User,
      [⟨0, "a@b.com", "password1", "Bo", "user", true, 0, 0⟩] = [] ++ [u] ∧
      (⟨0, "a@b.com", "Bo", "user", true, 0, 0⟩ : UserResponse) = u.toResponse ∧
      u.role = (if ("root" : String) = "admin" ∨ ("root" : String) = "user" then "root" else "user") ∧
      (u.role = "user" ∨ u.role = "admin") ∧
      u.active = true :=
  register_role_and_active (fun p => p) 0 [] ⟨"a@b.com", "password1", "Bo", "root"⟩
    ⟨0, "a@b.com", "Bo", "user", true, 0, 0⟩
    [⟨0, "a@b.com", "password1", "Bo", "user", true, 0, 0⟩] rfl

/-- C10: the duplicate pre-check calls GetByEmail with the raw,
caller-supplied email, while the created user stores the normalized email;
if no stored email equals the raw email but one equals its normalized form,
the pre-check reports no duplicate and the rejection comes from the email
uniqueness constraint at Create. -/
theorem register_precheck_uses_raw_email (hashFn : String → String) (now : Int)
    (store : List User) (req : UserCreateRequest)
    (hv : validateCreateRequest req = none)
    (hraw : ∀ u ∈ store, u.email ≠ req.email)
    (hnorm : ∃ u ∈ store, u.email = normalizeEmail req.email) :
    getByEmail store req.email = .error ErrUserNotFound ∧
    register hashFn now store req = .error ErrUserExists := by
  have hg : getByEmail store req.email = .error ErrUserNotFound := by
    unfold getByEmail
    rw [List.find?_eq_none.mpr (fun u hu => by simpa using hraw u hu)]
  refine ⟨hg, ?_⟩
  unfold register
  rw [hv, hg]
  have hany : store.any (fun u => u.email == normalizeEmail req.email) = true := by
    obtain ⟨u, hu, he⟩ := hnorm
    simp only [List.any_eq_true]
    exact ⟨u, hu, by simp [he]⟩
  simp [create, hany]

/-- Witness for C10: " Alice@X.com " normalizes to the already-registered
"alice@x.com"; the pre-check misses it and Create rejects. -/
theorem register_precheck_uses_raw_email_witness :
    getByEmail [⟨1, "alice@x.com", "hh", "Al", "user", true, 0, 0⟩]
      " Alice@X.com " = .error ErrUserNotFound ∧
    register (fun p => p) 0 [⟨1, "alice@x.com", "hh", "Al", "user", true, 0, 0⟩]
      ⟨" Alice@X.com ", "password1", "Bo", ""⟩ = .error ErrUserExists :=
  register_precheck_uses_raw_email (fun p => p) 0
    [⟨1, "alice@x.com", "hh", "Al", "user", true, 0, 0⟩]
    ⟨" Alice@X.com ", "password1", "Bo", ""⟩ (by decide) (by decide)
    ⟨⟨1, "alice@x.com", "hh", "Al", "user", true, 0, 0⟩, by simp, by decide⟩

/-- Reduction of `refreshToken` on a successfully validated token. -/
theorem refreshToken_ok (cfgExpiration now : Int) (claims : JWTClaims) :
    refreshToken cfgExpiration now (.ok claims) =
      if claims.expiresAt - now > hourNS then
        .error (newError .invalid "Token is not close to expiration")
      else
        .ok ⟨claims.userID, claims.email, claims.role, now + cfgExpiration, now,
          now, "fx-gin-scaffold", claims.email⟩ := rfl

/-- C3 counterexample: a valid token whose remaining validity is exactly one
hour (`expiresAt - now = hourNS`) is refreshed successfully, contradicting
the claim that remaining validity of 1 hour or more is rejected: the code
rejects only when the remaining validity strictly exceeds one hour. -/
theorem refreshToken_exactly_one_hour_succeeds :
    refreshToken (24 * hourNS) 0
      (.ok ⟨7, "a@b.com", "user", hourNS, -hourNS, -hourNS, "fx-gin-scaffold", "a@b.com"⟩) =
      .ok ⟨7, "a@b.com", "user", 24 * hourNS, 0, 0, "fx-gin-scaffold", "a@b.com"⟩ := by
  rw [refreshToken_ok, if_neg (by decide)]
  norm_num

/-- C3 (amended): `RefreshToken` reissues for a valid token exactly when the
remaining validity is at most 1 hour; a freshly issued token whose
expiration window exceeds 1 hour (the configured default is 24h) is rejected
with the "Token is not close to expiration" validation error, and an invalid
token propagates its validation error. -/
theorem refreshToken_policy (cfgExpiration now : Int) (claims : JWTClaims)
    (u : User) :
    ((refreshToken cfgExpiration now (.ok claims)).isOk = true ↔
      claims.expiresAt - now ≤ hourNS) ∧
    (hourNS < cfgExpiration →
      refreshToken cfgExpiration now (.ok (generateToken cfgExpiration now u)) =
        .error (newError .invalid "Token is not close to expiration")) ∧
    (∀ e, refreshToken cfgExpiration now (.error e) = .error e) := by
  refine ⟨?_, fun hlt => ?_, fun e => rfl⟩
  · by_cases hc : claims.expiresAt - now > hourNS
    · rw [refreshToken_ok, if_pos hc]
      simp [Except.isOk, Except.toBool]
      omega
    · rw [refreshToken_ok, if_neg hc]
      simp [Except.isOk, Except.toBool]
      omega
  · rw [refreshToken_ok,
      if_pos (show (generateToken cfgExpiration now u).expiresAt - now > hourNS by
        simp [generateToken]
        omega)]

/-- Witness for C3: with the default 24h expiration, refreshing a freshly
issued token fails with the validation error. -/
theorem refreshToken_policy_witness :
    refreshToken (24 * hourNS) 0
      (.ok (generateToken (24 * hourNS) 0 ⟨1, "a@b.com", "hh", "Al", "user", true, 0, 0⟩)) =
      .error (newError .invalid "Token is not close to expiration") :=
  (refreshToken_policy (24 * hourNS) 0
    ⟨1, "a@b.com", "user", 0, 0, 0, "fx-gin-scaffold", "a@b.com"⟩
    ⟨1, "a@b.com", "hh", "Al", "user", true, 0, 0⟩).2.1 (by decide)

/-- Characterization of a successful `mongoUpdateDocs`: the store splits at
the first document whose email matches; only that document changes, and only
in its name, role, active and updated_at fields. -/
theorem mongoUpdateDocs_eq_some (user : User) (now : Int) :
    ∀ (docs docs' : List MongoDoc), mongoUpdateDocs user now docs = some docs' →
      ∃ pre d post, docs = pre ++ d :: post ∧
        (∀ x ∈ pre, x.email ≠ user.email) ∧ d.email = user.email ∧
        docs' = pre ++ ({ d with
          name := user.name
          role := user.role
          active := user.active
          updatedAt := now } : MongoDoc) :: post := by
  intro docs
  induction docs with
  | nil => intro docs' h; simp [mongoUpdateDocs] at h
  | cons d rest ih =>
    intro docs' h
    unfold mongoUpdateDocs at h
    by_cases he : d.email = user.email
    · rw [if_pos (by simp [he])] at h
      refine ⟨[], d, rest, rfl, by simp, he, ?_⟩
      simpa using h.symm
    · rw [if_neg (by simp [he])] at h
      cases hrest : mongoUpdateDocs user now rest with
      | none => rw [hrest] at h; exact absurd h (by simp)
      | some rest' =>
        rw [hrest] at h
        replace h : d :: rest' = docs' := by simpa using h
        obtain ⟨pre, d0, post, hdq, hpre, hd0, hrest'⟩ := ih rest' hrest
        refine ⟨d :: pre, d0, post, by simp [hdq], ?_, hd0, ?_⟩
        · intro x hx
          rcases List.mem_cons.mp hx with rfl | hx
          · exact he
          · exact hpre x hx
        · rw [← h, hrest']
          rfl

/-- C9: the document-store `Update` matches by email and writes only the
name, role, active and updated_at fields of the first matching document:
every document's identifier, email, password and created_at are unchanged,
unmatched documents are untouched, and no code path of this variant can
produce an AlreadyExists-kind error. -/
theorem mongoUpdate_frame (backendErr : Option String) (now : Int)
    (store : List MongoDoc) (user : User) :
    (∀ store', mongoUpdate backendErr now store user = .ok store' →
      (store'.map (fun d => (d.oid, d.email, d.password, d.createdAt)) =
        store.map (fun d => (d.oid, d.email, d.password, d.createdAt))) ∧
      ∃ pre d post, store = pre ++ d :: post ∧
        (∀ x ∈ pre, x.email ≠ user.email) ∧ d.email = user.email ∧
        store' = pre ++ ({ d with
          name := user.name
          role := user.role
          active := user.active
          updatedAt := now } : MongoDoc) :: post) ∧
    (∀ e, mongoUpdate backendErr now store user = .error e →
      e.code ≠ .alreadyExists) := by
  constructor
  · intro store' h
    cases backendErr with
    | some msg => simp [mongoUpdate] at h
    | none =>
      unfold mongoUpdate at h
      cases hdocs : mongoUpdateDocs user now store with
      | none => rw [hdocs] at h; exact absurd h (by simp)
      | some s' =>
        rw [hdocs] at h
        replace h : s' = store' := by simpa using h
        subst h
        obtain ⟨pre, d, post, hs, hpre, hd, hs'⟩ :=
          mongoUpdateDocs_eq_some user now store s' hdocs
        refine ⟨?_, pre, d, post, hs, hpre, hd, hs'⟩
        rw [hs, hs']
        simp
  · intro e h
    cases backendErr with
    | some msg =>
      replace h : wrapError msg .database "Failed to update user" = e := by
        simpa [mongoUpdate] using h
      rw [← h]
      simp [wrapError]
    | none =>
      unfold mongoUpdate at h
      cases hdocs : mongoUpdateDocs user now store with
      | none =>
        rw [hdocs] at h
        replace h : ErrUserNotFound = e := by simpa using h
        rw [← h]
        simp [ErrUserNotFound]
      | some s' => rw [hdocs] at h; exact absurd h (by simp)

/-- Witness for C9: updating name/role/active of the document stored for
"a@b.com" leaves oid, email, password and created_at untouched. -/
theorem mongoUpdate_frame_witness :
    (([⟨5, "a@b.com", "pw", "New", "admin", false, 1, 9⟩] : List MongoDoc).map
        (fun d => (d.oid, d.email, d.password, d.createdAt)) =
      ([⟨5, "a@b.com", "pw", "Old", "user", true, 1, 1⟩] : List MongoDoc).map
        (fun d => (d.oid, d.email, d.password, d.createdAt))) ∧
    ∃ pre d post,
      ([⟨5, "a@b.com", "pw", "Old", "user", true, 1, 1⟩] : List MongoDoc) =
        pre ++ d :: post ∧
      (∀ x ∈ pre, x.email ≠ ("a@b.com" : String)) ∧ d.email = "a@b.com" ∧
      ([⟨5, "a@b.com", "pw", "New", "admin", false, 1, 9⟩] : List MongoDoc) =
        pre ++ ({ d with
          name := "New"
          role := "admin"
          active := false
          updatedAt := 9 } : MongoDoc) :: post :=
  (mongoUpdate_frame none 9 [⟨5, "a@b.com", "pw", "Old", "user", true, 1, 1⟩]
    ⟨0, "a@b.com", "ignored", "New", "admin", false, 0, 0⟩).1
    [⟨5, "a@b.com", "pw", "New", "admin", false, 1, 9⟩] rfl

theorem filter_length_le_of_imp {α : Type} (p q : α → Bool)
    (hpq : ∀ a, p a = true → q a = true) :
    ∀ l : List α, (l.filter p).length ≤ (l.filter q).length := by
  intro l
  induction l with
  | nil => simp
  | cons x xs ih =>
    cases hx : p x
    · cases hqx : q x <;> simp [List.filter_cons, hx, hqx] <;> omega
    · simp [List.filter_cons, hx, hpq x hx]
      omega

theorem filter_length_lt_of_mem {α : Type} (p q : α → Bool)
    (hpq : ∀ a, p a = true → q a = true) :
    ∀ l : List α, (∃ a ∈ l, q a = true ∧ p a = false) →
      (l.filter p).length < (l.filter q).length := by
  intro l
  induction l with
  | nil => rintro ⟨a, ha, -, -⟩; cases ha
  | cons x xs ih =>
    rintro ⟨a, ha, hqa, hpa⟩
    rcases List.mem_cons.mp ha with rfl | ha
    · have hle := filter_length_le_of_imp p q hpq xs
      simp [List.filter_cons, hpa, hqa]
      omega
    · have hlt := ih ⟨a, ha, hqa, hpa⟩
      cases hx : p x
      · cases hqx : q x <;> simp [List.filter_cons, hx, hqx] <;> omega
      · simp [List.filter_cons, hx, hpq x hx]
        omega

theorem filter_length_eq_of_forall₂ {α β : Type} (p : α → Bool) (q : β → Bool) :
    ∀ {l₁ : List α} {l₂ : List β}, List.Forall₂ (fun a b => p a = q b) l₁ l₂ →
      (l₁.filter p).length = (l₂.filter q).length := by
  intro l₁ l₂ h
  induction h with
  | nil => rfl
  | cons hab htail ih =>
    rename_i a b t₁ t₂
    cases hq : q b
    · simp [List.filter_cons, hab, hq, ih]
    · simp [List.filter_cons, hab, hq, ih]

theorem mem_of_mem_docs_page (ms : List MongoDoc) (offset limit : Nat)
    (d : MongoDoc)
    (hd : d ∈ ((sortDocsByCreatedDesc ms).drop offset).take limit) : d ∈ ms := by
  have h1 : d ∈ sortDocsByCreatedDesc ms :=
    List.drop_subset offset _ (List.take_subset limit _ hd)
  exact (List.perm_insertionSort _ ms).subset h1

/-- C6 (amended): the document-store List/Search count and return only
active records while the relational List/Search apply no active filter; a
store holding an inactive user therefore gets different totals from the two
variants for every List call, and for a Search call whenever some inactive
record matches the query (a Search matching no inactive record can return
identical results and totals on both variants). -/
theorem list_search_active_asymmetry (docs : List MongoDoc) (users : List User)
    (query : String) (offset limit : Nat)
    (hm : List.Forall₂ Mirror docs users) :
    ((mongoList docs offset limit).2 = (docs.filter (fun d => d.active)).length ∧
      ∀ u ∈ (mongoList docs offset limit).1, u.active = true) ∧
    ((mongoSearch docs query offset limit).2 =
        (docs.filter (fun d => d.active &&
          (containsCI d.name query || containsCI d.email query))).length ∧
      ∀ u ∈ (mongoSearch docs query offset limit).1, u.active = true) ∧
    ((gormList users offset limit).2 = users.length ∧
      (gormSearch users query offset limit).2 =
        (users.filter
          (fun u => containsCI u.name query || containsCI u.email query)).length) ∧
    ((∃ u ∈ users, u.active = false) →
      (mongoList docs offset limit).2 ≠ (gormList users offset limit).2) ∧
    ((∃ d ∈ docs, d.active = false ∧
        (containsCI d.name query || containsCI d.email query) = true) →
      (mongoSearch docs query offset limit).2 ≠
        (gormSearch users query offset limit).2) := by
  have hact : List.Forall₂
      (fun (d : MongoDoc) (u : User) => d.active = u.active) docs users :=
    hm.imp (fun _ _ h => h.2.2.1)
  have hmatch : List.Forall₂ (fun (d : MongoDoc) (u : User) =>
      (containsCI d.name query || containsCI d.email query) =
        (containsCI u.name query || containsCI u.email query)) docs users :=
    hm.imp (fun _ _ h => by rw [h.1, h.2.1])
  refine ⟨⟨rfl, ?_⟩, ⟨rfl, ?_⟩, ⟨rfl, rfl⟩, ?_, ?_⟩
  · intro u hu
    simp only [mongoList, List.mem_map] at hu
    obtain ⟨d, hd, rfl⟩ := hu
    have := mem_of_mem_docs_page _ offset limit d hd
    have hda := (List.mem_filter.mp this).2
    simpa [MongoDoc.toDomainUser] using hda
  · intro u hu
    simp only [mongoSearch, List.mem_map] at hu
    obtain ⟨d, hd, rfl⟩ := hu
    have := mem_of_mem_docs_page _ offset limit d hd
    have hda := (List.mem_filter.mp this).2
    simp only [Bool.and_eq_true] at hda
    simpa [MongoDoc.toDomainUser] using hda.1
  · rintro ⟨u, hu, hua⟩
    have heq : (docs.filter (fun d => d.active)).length =
        (users.filter (fun u => u.active)).length :=
      filter_length_eq_of_forall₂ _ _ hact
    have hlt : (users.filter (fun u => u.active)).length <
        (users.filter (fun _ => true)).length :=
      filter_length_lt_of_mem _ _ (fun _ _ => rfl) users ⟨u, hu, rfl, hua⟩
    have : (mongoList docs offset limit).2 =
        (users.filter (fun u => u.active)).length := heq
    rw [this]
    have hall : (users.filter (fun _ => true)).length = users.length := by simp
    show (users.filter (fun u => u.active)).length ≠ users.length
    omega
  · rintro ⟨d, hd, hda, hdq⟩
    have heq : (docs.filter (fun d => containsCI d.name query ||
        containsCI d.email query)).length =
        (users.filter (fun u => containsCI u.name query ||
          containsCI u.email query)).length :=
      filter_length_eq_of_forall₂ _ _ hmatch
    have hlt : (docs.filter (fun d => d.active &&
        (containsCI d.name query || containsCI d.email query))).length <
        (docs.filter (fun d => containsCI d.name query ||
          containsCI d.email query)).length := by
      refine filter_length_lt_of_mem _ _ ?_ docs ⟨d, hd, hdq, by simp [hda]⟩
      intro a ha
      simp only [Bool.and_eq_true] at ha
      exact ha.2
    show (docs.filter (fun d => d.active &&
        (containsCI d.name query || containsCI d.email query))).length ≠
      (users.filter
        (fun u => containsCI u.name query || containsCI u.email query)).length
    omega

/-- Witness for C6: with one inactive mirrored user, List totals differ (0
versus 1) and a Search matching the inactive user differs too. -/
theorem list_search_active_asymmetry_witness :
    (mongoList [⟨1, "bob@x.com", "pw", "Bob", "user", false, 0, 0⟩] 0 10).2 ≠
      (gormList [⟨1, "bob@x.com", "pw", "Bob", "user", false, 0, 0⟩] 0 10).2 ∧
    (mongoSearch [⟨1, "bob@x.com", "pw", "Bob", "user", false, 0, 0⟩] "bob" 0 10).2 ≠
      (gormSearch [⟨1, "bob@x.com", "pw", "Bob", "user", false, 0, 0⟩] "bob" 0 10).2 := by
  have h := list_search_active_asymmetry
    [⟨1, "bob@x.com", "pw", "Bob", "user", false, 0, 0⟩]
    [⟨1, "bob@x.com", "pw", "Bob", "user", false, 0, 0⟩] "bob" 0 10
    (List.Forall₂.cons ⟨rfl, rfl, rfl, rfl⟩ List.Forall₂.nil)
  exact ⟨h.2.2.2.1 ⟨_, List.mem_singleton.mpr rfl, rfl⟩,
    h.2.2.2.2 ⟨_, List.mem_singleton.mpr rfl, rfl, by decide⟩⟩

/-- C6 counterexample: with a store holding exactly one (inactive) user, a
Search whose query matches no record returns the same empty result set and
the same total 0 on both variants, so the two variants do not differ on
every call. -/
theorem list_search_active_asymmetry_cex :
    List.Forall₂ Mirror [⟨1, "bob@x.com", "pw", "Bob", "user", false, 0, 0⟩]
      [⟨1, "bob@x.com", "pw", "Bob", "user", false, 0, 0⟩] ∧
    mongoSearch [⟨1, "bob@x.com", "pw", "Bob", "user", false, 0, 0⟩]
      "alice" 0 10 = ([], 0) ∧
    gormSearch [⟨1, "bob@x.com", "pw", "Bob", "user", false, 0, 0⟩]
      "alice" 0 10 = ([], 0) :=
  ⟨List.Forall₂.cons ⟨rfl, rfl, rfl, rfl⟩ List.Forall₂.nil, by decide, by decide⟩

theorem runMigs_cons_skip {σ : Type} (m : Migration σ) (rest : List (Migration σ))
    (executed : List String) (ledger : List LedgerRec) (s : σ) (ups : List String)
    (hm : m.version ∈ executed) :
    runMigs (m :: rest) executed ledger s ups = runMigs rest executed ledger s ups := by
  simp only [runMigs]
  rw [if_pos hm]

theorem runMigs_cons_fail {σ : Type} (m : Migration σ) (rest : List (Migration σ))
    (executed : List String) (ledger : List LedgerRec) (s : σ) (ups : List String)
    (e : String) (hm : m.version ∉ executed) (hup : m.up s = .error e) :
    runMigs (m :: rest) executed ledger s ups =
      ⟨ledger, s, ups ++ [m.version],
        some ("migration " ++ m.version ++ " failed: " ++ e)⟩ := by
  simp only [runMigs]
  rw [if_neg hm]
  split
  · rename_i e2 heq
    rw [hup] at heq
    cases heq
    rfl
  · rename_i s2 heq
    rw [hup] at heq
    cases heq

theorem runMigs_cons_dup {σ : Type} (m : Migration σ) (rest : List (Migration σ))
    (executed : List String) (ledger : List LedgerRec) (s s2 : σ) (ups : List String)
    (hm : m.version ∉ executed) (hup : m.up s = .ok s2)
    (hl : m.version ∈ ledger.map (·.version)) :
    runMigs (m :: rest) executed ledger s ups =
      ⟨ledger, s2, ups ++ [m.version],
        some ("failed to record migration " ++ m.version ++ ": duplicate version")⟩ := by
  simp only [runMigs]
  rw [if_neg hm]
  split
  · rename_i e2 heq
    rw [hup] at heq
    cases heq
  · rename_i s3 heq
    rw [hup] at heq
    cases heq
    rw [if_pos hl]

theorem runMigs_cons_run {σ : Type} (m : Migration σ) (rest : List (Migration σ))
    (executed : List String) (ledger : List LedgerRec) (s s2 : σ) (ups : List String)
    (hm : m.version ∉ executed) (hup : m.up s = .ok s2)
    (hl : m.version ∉ ledger.map (·.version)) :
    runMigs (m :: rest) executed ledger s ups =
      runMigs rest executed (ledger ++ [⟨m.version, m.description⟩]) s2
        (ups ++ [m.version]) := by
  simp only [runMigs]
  rw [if_neg hm]
  split
  · rename_i e2 heq
    rw [hup] at heq
    cases heq
  · rename_i s3 heq
    rw [hup] at heq
    cases heq
    rw [if_neg hl]

theorem migrate_def {σ : Type} (migs : List (Migration σ)) (ledger : List LedgerRec)
    (s : σ) :
    migrate migs ledger s =
      runMigs (migs.insertionSort migLE) (ledger.map (·.version)) ledger s [] := rfl

theorem runMigs_ledger_grows {σ : Type} :
    ∀ (ms : List (Migration σ)) (executed : List String) (ledger : List LedgerRec)
      (s : σ) (ups : List String),
      ∃ t, (runMigs ms executed ledger s ups).ledger = ledger ++ t := by
  intro ms
  induction ms with
  | nil => intro executed ledger s ups; exact ⟨[], by simp [runMigs]⟩
  | cons m rest ih =>
    intro executed ledger s ups
    by_cases hm : m.version ∈ executed
    · rw [runMigs_cons_skip m rest executed ledger s ups hm]
      exact ih executed ledger s ups
    · cases hup : m.up s with
      | error e =>
        rw [runMigs_cons_fail m rest executed ledger s ups e hm hup]
        exact ⟨[], by simp⟩
      | ok s2 =>
        by_cases hl : m.version ∈ ledger.map (·.version)
        · rw [runMigs_cons_dup m rest executed ledger s s2 ups hm hup hl]
          exact ⟨[], by simp⟩
        · rw [runMigs_cons_run m rest executed ledger s s2 ups hm hup hl]
          obtain ⟨t, ht⟩ := ih executed (ledger ++ [⟨m.version, m.description⟩])
            s2 (ups ++ [m.version])
          exact ⟨⟨m.version, m.description⟩ :: t, by rw [ht]; simp⟩

theorem runMigs_skip_all {σ : Type} :
    ∀ (ms : List (Migration σ)) (executed : List String) (ledger : List LedgerRec)
      (s : σ) (ups : List String), (∀ m ∈ ms, m.version ∈ executed) →
      runMigs ms executed ledger s ups = ⟨ledger, s, ups, none⟩ := by
  intro ms
  induction ms with
  | nil => intros; rfl
  | cons m rest ih =>
    intro executed ledger s ups hall
    rw [runMigs_cons_skip m rest executed ledger s ups (hall m (List.mem_cons_self m rest))]
    exact ih executed ledger s ups (fun x hx => hall x (List.mem_cons_of_mem m hx))

theorem runMigs_success_mem {σ : Type} :
    ∀ (ms : List (Migration σ)) (executed : List String) (ledger : List LedgerRec)
      (s : σ) (ups : List String),
      (runMigs ms executed ledger s ups).err = none →
      (∀ v ∈ executed, v ∈ ledger.map (·.version)) →
      ∀ m ∈ ms,
        m.version ∈ (runMigs ms executed ledger s ups).ledger.map (·.version) := by
  intro ms
  induction ms with
  | nil => intro _ _ _ _ _ _ m hm; cases hm
  | cons m rest ih =>
    intro executed ledger s ups herr hsub m0 hm0
    by_cases hm : m.version ∈ executed
    · rw [runMigs_cons_skip m rest executed ledger s ups hm] at herr ⊢
      rcases List.mem_cons.mp hm0 with rfl | h0
      · obtain ⟨t, ht⟩ := runMigs_ledger_grows rest executed ledger s ups
        rw [ht, List.map_append]
        exact List.mem_append_left _ (hsub _ hm)
      · exact ih executed ledger s ups herr hsub m0 h0
    · cases hup : m.up s with
      | error e =>
        rw [runMigs_cons_fail m rest executed ledger s ups e hm hup] at herr
        simp at herr
      | ok s2 =>
        by_cases hl : m.version ∈ ledger.map (·.version)
        · rw [runMigs_cons_dup m rest executed ledger s s2 ups hm hup hl] at herr
          simp at herr
        · rw [runMigs_cons_run m rest executed ledger s s2 ups hm hup hl] at herr ⊢
          have hsub2 : ∀ v ∈ executed,
              v ∈ (ledger ++ [(⟨m.version, m.description⟩ : LedgerRec)]).map (·.version) := by
            intro v hv
            rw [List.map_append]
            exact List.mem_append_left _ (hsub v hv)
          rcases List.mem_cons.mp hm0 with rfl | h0
          · obtain ⟨t, ht⟩ := runMigs_ledger_grows rest executed
              (ledger ++ [(⟨m0.version, m0.description⟩ : LedgerRec)]) s2
              (ups ++ [m0.version])
            rw [ht, List.map_append, List.map_append]
            exact List.mem_append_left _ (List.mem_append_right _ (by simp))
          · exact ih executed (ledger ++ [⟨m.version, m.description⟩]) s2
              (ups ++ [m.version]) herr hsub2 m0 h0

theorem runMigs_success_nodup {σ : Type} :
    ∀ (ms : List (Migration σ)) (executed : List String) (ledger : List LedgerRec)
      (s : σ) (ups : List String),
      (runMigs ms executed ledger s ups).err = none →
      (ledger.map (·.version)).Nodup →
      ((runMigs ms executed ledger s ups).ledger.map (·.version)).Nodup := by
  intro ms
  induction ms with
  | nil => intro _ _ _ _ _ hnd; simpa [runMigs] using hnd
  | cons m rest ih =>
    intro executed ledger s ups herr hnd
    by_cases hm : m.version ∈ executed
    · rw [runMigs_cons_skip m rest executed ledger s ups hm] at herr ⊢
      exact ih executed ledger s ups herr hnd
    · cases hup : m.up s with
      | error e =>
        rw [runMigs_cons_fail m rest executed ledger s ups e hm hup] at herr
        simp at herr
      | ok s2 =>
        by_cases hl : m.version ∈ ledger.map (·.version)
        · rw [runMigs_cons_dup m rest executed ledger s s2 ups hm hup hl] at herr
          simp at herr
        · rw [runMigs_cons_run m rest executed ledger s s2 ups hm hup hl] at herr ⊢
          have hnd2 : ((ledger ++ [(⟨m.version, m.description⟩ : LedgerRec)]).map (·.version)).Nodup := by
            rw [List.map_append]
            simp [List.nodup_append, hnd, hl]
          exact ih executed (ledger ++ [⟨m.version, m.description⟩]) s2
            (ups ++ [m.version]) herr hnd2

theorem runMigs_append {σ : Type} :
    ∀ (as bs : List (Migration σ)) (executed : List String)
      (ledger : List LedgerRec) (s : σ) (ups : List String),
      (runMigs as executed ledger s ups).err = none →
      runMigs (as ++ bs) executed ledger s ups =
        runMigs bs executed (runMigs as executed ledger s ups).ledger
          (runMigs as executed ledger s ups).state
          (runMigs as executed ledger s ups).upsRun := by
  intro as
  induction as with
  | nil => intro bs executed ledger s ups _; rfl
  | cons m rest ih =>
    intro bs executed ledger s ups herr
    rw [List.cons_append]
    by_cases hm : m.version ∈ executed
    · rw [runMigs_cons_skip m rest executed ledger s ups hm] at herr ⊢
      rw [runMigs_cons_skip m (rest ++ bs) executed ledger s ups hm]
      exact ih bs executed ledger s ups herr
    · cases hup : m.up s with
      | error e =>
        rw [runMigs_cons_fail m rest executed ledger s ups e hm hup] at herr
        simp at herr
      | ok s2 =>
        by_cases hl : m.version ∈ ledger.map (·.version)
        · rw [runMigs_cons_dup m rest executed ledger s s2 ups hm hup hl] at herr
          simp at herr
        · rw [runMigs_cons_run m rest executed ledger s s2 ups hm hup hl] at herr ⊢
          rw [runMigs_cons_run m (rest ++ bs) executed ledger s s2 ups hm hup hl]
          exact ih bs executed (ledger ++ [⟨m.version, m.description⟩]) s2
            (ups ++ [m.version]) herr

theorem runMigs_upsRun_sub {σ : Type} :
    ∀ (ms : List (Migration σ)) (executed : List String) (ledger : List LedgerRec)
      (s : σ) (ups : List String),
      ∃ t, (runMigs ms executed ledger s ups).upsRun = ups ++ t ∧
        t.Sublist (ms.map (·.version)) := by
  intro ms
  induction ms with
  | nil => intro executed ledger s ups; exact ⟨[], by simp [runMigs], by simp⟩
  | cons m rest ih =>
    intro executed ledger s ups
    by_cases hm : m.version ∈ executed
    · rw [runMigs_cons_skip m rest executed ledger s ups hm]
      obtain ⟨t, ht, hts⟩ := ih executed ledger s ups
      exact ⟨t, ht, hts.cons _⟩
    · cases hup : m.up s with
      | error e =>
        rw [runMigs_cons_fail m rest executed ledger s ups e hm hup]
        exact ⟨[m.version], by simp, by simp⟩
      | ok s2 =>
        by_cases hl : m.version ∈ ledger.map (·.version)
        · rw [runMigs_cons_dup m rest executed ledger s s2 ups hm hup hl]
          exact ⟨[m.version], by simp, by simp⟩
        · rw [runMigs_cons_run m rest executed ledger s s2 ups hm hup hl]
          obtain ⟨t, ht, hts⟩ := ih executed (ledger ++ [⟨m.version, m.description⟩])
            s2 (ups ++ [m.version])
          exact ⟨m.version :: t, by rw [ht]; simp, hts.cons₂ _⟩

/-- C2 counterexample: with a single registered migration whose Up action
fails, the first run aborts without recording it, so a second run executes
its Up action again: the second run performs a forward action and the
ledger ends up not containing the version at all, contrary to the claim for
arbitrary migration sets. -/
theorem migrate_twice_failing_up_reruns :
    (migrate [⟨"20240101120000", "add users table", fun _ => .error "boom"⟩]
      (migrate (σ := Unit) [⟨"20240101120000", "add users table", fun _ => .error "boom"⟩] [] ()).ledger
      (migrate (σ := Unit) [⟨"20240101120000", "add users table", fun _ => .error "boom"⟩] [] ()).state).upsRun =
      ["20240101120000"] ∧
    (migrate (σ := Unit) [⟨"20240101120000", "add users table", fun _ => .error "boom"⟩] [] ()).ledger = [] :=
  ⟨rfl, rfl⟩

/-- C2 (amended): for every set of registered migrations and every ledger
state (duplicate-free, as the ledger's version column is its primary key),
if the first `Migrate` run returns without error then after running twice
the ledger lists each registered migration's version exactly once, and the
second run executes zero Up actions, leaves the ledger unchanged and
succeeds. -/
theorem migrate_idempotent {σ : Type} (migs : List (Migration σ))
    (ledger : List LedgerRec) (s : σ)
    (hnd : (ledger.map (·.version)).Nodup)
    (h1 : (migrate migs ledger s).err = none) :
    (migrate migs (migrate migs ledger s).ledger (migrate migs ledger s).state).upsRun = [] ∧
    (migrate migs (migrate migs ledger s).ledger (migrate migs ledger s).state).err = none ∧
    (migrate migs (migrate migs ledger s).ledger (migrate migs ledger s).state).ledger =
      (migrate migs ledger s).ledger ∧
    ∀ m ∈ migs,
      ((migrate migs (migrate migs ledger s).ledger (migrate migs ledger s).state).ledger.map
        (·.version)).count m.version = 1 := by
  have h1' : (runMigs (migs.insertionSort migLE) (ledger.map (·.version))
      ledger s []).err = none := by
    rw [← migrate_def]
    exact h1
  have hmem : ∀ m ∈ migs, m.version ∈ (migrate migs ledger s).ledger.map (·.version) := by
    intro m hm
    rw [migrate_def]
    exact runMigs_success_mem (migs.insertionSort migLE) (ledger.map (·.version))
      ledger s [] h1' (fun v hv => hv) m
      ((List.perm_insertionSort migLE migs).mem_iff.mpr hm)
  have hnd1 : ((migrate migs ledger s).ledger.map (·.version)).Nodup := by
    rw [migrate_def]
    exact runMigs_success_nodup (migs.insertionSort migLE) (ledger.map (·.version))
      ledger s [] h1' hnd
  have hskip : migrate migs (migrate migs ledger s).ledger (migrate migs ledger s).state =
      ⟨(migrate migs ledger s).ledger, (migrate migs ledger s).state, [], none⟩ := by
    rw [migrate_def]
    apply runMigs_skip_all
    intro m hm
    exact hmem m ((List.perm_insertionSort migLE migs).subset hm)
  rw [hskip]
  exact ⟨rfl, rfl, rfl, fun m hm => List.count_eq_one_of_mem hnd1 (hmem m hm)⟩

/-- Witness for C2: two migrations with succeeding Up actions, run twice
from an empty ledger. -/
theorem migrate_idempotent_witness :
    (migrate [⟨"2024b", "second", fun s => .ok s⟩, ⟨"2024a", "first", fun s => .ok s⟩]
      (migrate (σ := Unit) [⟨"2024b", "second", fun s => .ok s⟩, ⟨"2024a", "first", fun s => .ok s⟩] [] ()).ledger
      (migrate (σ := Unit) [⟨"2024b", "second", fun s => .ok s⟩, ⟨"2024a", "first", fun s => .ok s⟩] [] ()).state).upsRun = [] ∧
    (migrate [⟨"2024b", "second", fun s => .ok s⟩, ⟨"2024a", "first", fun s => .ok s⟩]
      (migrate (σ := Unit) [⟨"2024b", "second", fun s => .ok s⟩, ⟨"2024a", "first", fun s => .ok s⟩] [] ()).ledger
      (migrate (σ := Unit) [⟨"2024b", "second", fun s => .ok s⟩, ⟨"2024a", "first", fun s => .ok s⟩] [] ()).state).err = none ∧
    (migrate [⟨"2024b", "second", fun s => .ok s⟩, ⟨"2024a", "first", fun s => .ok s⟩]
      (migrate (σ := Unit) [⟨"2024b", "second", fun s => .ok s⟩, ⟨"2024a", "first", fun s => .ok s⟩] [] ()).ledger
      (migrate (σ := Unit) [⟨"2024b", "second", fun s => .ok s⟩, ⟨"2024a", "first", fun s => .ok s⟩] [] ()).state).ledger =
      (migrate (σ := Unit) [⟨"2024b", "second", fun s => .ok s⟩, ⟨"2024a", "first", fun s => .ok s⟩] [] ()).ledger ∧
    ∀ m ∈ ([⟨"2024b", "second", fun s => .ok s⟩, ⟨"2024a", "first", fun s => .ok s⟩] : List (Migration Unit)),
      ((migrate [⟨"2024b", "second", fun s => .ok s⟩, ⟨"2024a", "first", fun s => .ok s⟩]
        (migrate (σ := Unit) [⟨"2024b", "second", fun s => .ok s⟩, ⟨"2024a", "first", fun s => .ok s⟩] [] ()).ledger
        (migrate (σ := Unit) [⟨"2024b", "second", fun s => .ok s⟩, ⟨"2024a", "first", fun s => .ok s⟩] [] ()).state).ledger.map
          (·.version)).count m.version = 1 :=
  migrate_idempotent
    [⟨"2024b", "second", fun s => .ok s⟩, ⟨"2024a", "first", fun s => .ok s⟩]
    [] () (by simp) rfl

/-- C4: a Migrate run executes pending Up actions in ascending
byte-lexicographic version order (its executed-version trace is sorted);
and when, after a successfully processed prefix of the sorted list, the next
migration is pending and its Up action fails, the run aborts immediately
with a wrapped error naming the failing version: the Up actions executed
are exactly the prefix's plus the failing one (nothing later runs), and the
ledger is exactly as left by the prefix — earlier migrations of the run
remain recorded, the failing one is not, and nothing is rolled back. -/
theorem migrate_order_and_abort {σ : Type} (migs : List (Migration σ))
    (ledger : List LedgerRec) (s : σ) (pre post : List (Migration σ))
    (m : Migration σ) (r : String)
    (hsort : migs.insertionSort migLE = pre ++ m :: post) :
    List.Sorted strLE (migrate migs ledger s).upsRun ∧
    ((runMigs pre (ledger.map (·.version)) ledger s []).err = none →
      m.version ∉ ledger.map (·.version) →
      m.up (runMigs pre (ledger.map (·.version)) ledger s []).state = .error r →
      migrate migs ledger s =
        ⟨(runMigs pre (ledger.map (·.version)) ledger s []).ledger,
          (runMigs pre (ledger.map (·.version)) ledger s []).state,
          (runMigs pre (ledger.map (·.version)) ledger s []).upsRun ++ [m.version],
          some ("migration " ++ m.version ++ " failed: " ++ r)⟩) := by
  constructor
  · obtain ⟨t, ht, hts⟩ := runMigs_upsRun_sub (migs.insertionSort migLE)
      (ledger.map (·.version)) ledger s []
    have hrw : (migrate migs ledger s).upsRun = t := by
      rw [migrate_def, ht]
      simp
    rw [hrw]
    have hsorted : List.Sorted migLE (migs.insertionSort migLE) :=
      List.sorted_insertionSort migLE migs
    have hmap : List.Sorted strLE ((migs.insertionSort migLE).map (·.version)) :=
      List.Pairwise.map (R := migLE) (S := strLE) (fun mg => mg.version)
        (fun _ _ h => h) hsorted
    exact List.Pairwise.sublist hts hmap
  · intro hpre hpend hfail
    rw [migrate_def, hsort, runMigs_append pre (m :: post) _ _ _ _ hpre,
      runMigs_cons_fail m post (ledger.map (·.version)) _ _ _ r hpend hfail]

/-- Witness for C4: four registered migrations, given out of order; the
sorted run applies "a" and "b", aborts on the failing "c" and never reaches
"d"; the ledger keeps exactly "a" and "b". -/
theorem migrate_order_and_abort_witness :
    List.Sorted strLE
      (migrate ([⟨"b", "second", fun s => .ok s⟩, ⟨"a", "first", fun s => .ok s⟩,
        ⟨"c", "third", fun _ => .error "boom"⟩, ⟨"d", "fourth", fun s => .ok s⟩] :
          List (Migration Unit)) [] ()).upsRun ∧
    migrate ([⟨"b", "second", fun s => .ok s⟩, ⟨"a", "first", fun s => .ok s⟩,
        ⟨"c", "third", fun _ => .error "boom"⟩, ⟨"d", "fourth", fun s => .ok s⟩] :
          List (Migration Unit)) [] () =
      ⟨[⟨"a", "first"⟩, ⟨"b", "second"⟩], (), ["a", "b", "c"],
        some "migration c failed: boom"⟩ := by
  have h := migrate_order_and_abort
    ([⟨"b", "second", fun s => .ok s⟩, ⟨"a", "first", fun s => .ok s⟩,
      ⟨"c", "third", fun _ => .error "boom"⟩, ⟨"d", "fourth", fun s => .ok s⟩] :
        List (Migration Unit)) [] ()
    [⟨"a", "first", fun s => .ok s⟩, ⟨"b", "second", fun s => .ok s⟩]
    [⟨"d", "fourth", fun s => .ok s⟩] ⟨"c", "third", fun _ => .error "boom"⟩
    "boom" rfl
  exact ⟨h.1, h.2 rfl (by simp) rfl⟩

end Scaffold
